import Mathlib

/-!
# Verification of the arxiv-digest retrieval and aggregation pipeline

A shallow embedding, in Lean 4, of the core logic of the repository:

* `scripts/arxiv_fetch.py` — identifier normalization, deduplication,
  announce-type filtering, period parsing, date chunking, and the
  orchestrator post-processing step;
* `scripts/build_profile.py` — the fuzzy same-person check, the
  collaboration-network aggregation, and the second-degree expansion.

Python strings are modelled as Lean `String` (a structure around
`List Char`).  Python regular expressions used by the code only involve
ASCII digit classes on the inputs of interest, so character classes are
modelled with ASCII predicates; Python `str.lower` is modelled on the
ASCII range, and `str.strip` with the ASCII whitespace set that Python
uses for ASCII text.  Python `datetime` values are modelled either as
proleptic-Gregorian ordinals (`Nat`, rata die) — `datetime` comparison
and `timedelta` arithmetic are precisely ordinal comparison and
arithmetic — or, where the code manipulates calendar fields directly
(`datetime.replace`), as explicit `(year, month, day)` triples.
Counter weights accumulated with the literal `0.3` are modelled over `ℚ`
(the claims under study do not depend on keyword weights, where binary
floating point would differ from exact rationals).

Dictionaries with insertion order (Python 3.7+ `dict`, `defaultdict`,
`Counter`) are modelled as insertion-ordered association lists;
`sorted(..., reverse=True)` and `Counter.most_common(n)` are modelled by
a stable descending insertion sort, matching the documented stability of
Python sorting (`heapq.nlargest`, used by `most_common`, is documented
as equivalent to `sorted(..., reverse=True)[:n]`).
-/

/-! ## Python string primitives -/

/-- The ASCII whitespace characters recognized by Python `str.strip()` /
`str.split()` on ASCII text. -/
def pyIsWs (c : Char) : Bool :=
  c == ' ' || c == '\t' || c == '\n' || c == '\r' || c == '\x0b' || c == '\x0c'

/-- Python `str.strip()` on a character list: drop whitespace at both ends. -/
def pystripList (l : List Char) : List Char :=
  ((l.dropWhile pyIsWs).reverse.dropWhile pyIsWs).reverse

/-- Python `str.strip()`. -/
def pystrip (s : String) : String :=
  String.mk (pystripList s.data)

/-- Python `str.lower()` on one character (ASCII range). -/
def pylowerChar (c : Char) : Char :=
  if 'A' ≤ c && c ≤ 'Z' then Char.ofNat (c.toNat + 32) else c

/-- Python `str.lower()` (ASCII range). -/
def pylower (s : String) : String :=
  String.mk (s.data.map pylowerChar)

/-- One pass of Python `str.split()`: `cur` is the reversed current
token (empty when between tokens). -/
def pysplitGo (cur : List Char) : List Char → List (List Char)
  | [] => if cur.isEmpty then [] else [cur.reverse]
  | c :: cs =>
    if pyIsWs c then
      if cur.isEmpty then pysplitGo [] cs else cur.reverse :: pysplitGo [] cs
    else pysplitGo (c :: cur) cs

/-- Tokens of Python `str.split()` (split on whitespace runs, no empties). -/
def pysplitTokens (l : List Char) : List (List Char) :=
  pysplitGo [] l

/-- Python `str.split()` (no separator argument). -/
def pysplit (s : String) : List String :=
  (pysplitTokens s.data).map String.mk

/-- Join token lists with single spaces (`" ".join(tokens)`). -/
def joinWithSpace : List (List Char) → List Char
  | [] => []
  | [t] => t
  | t :: ts => t ++ ' ' :: joinWithSpace ts

/-- Python `" ".join(s.split())`: collapse all whitespace runs to single
spaces and strip the ends. -/
def wsCollapse (s : String) : String :=
  String.mk (joinWithSpace (pysplitTokens s.data))

/-- Python `set(s.split())` as a duplicate-free list.  Only the
cardinality of this set is ever inspected by the code under study. -/
def pyset (s : String) : List String :=
  (pysplit s).dedup

/-- Python `s.rstrip(".")`: remove all trailing dots. -/
def rstripDot (s : String) : String :=
  String.mk ((s.data.reverse.dropWhile (fun c => c == '.')).reverse)

/-- `pat` is a prefix of `l` (Python `str.startswith` on lists). -/
def startsWithList : List Char → List Char → Bool
  | [], _ => true
  | _ :: _, [] => false
  | p :: ps, c :: cs => p == c && startsWithList ps cs

/-- Python `s.startswith(pre)`. -/
def pyStartsWith (s pre : String) : Bool :=
  startsWithList pre.data s.data

/-- Value of an ASCII digit character (48 ≤ val ≤ 57 assumed at uses). -/
def c2n (c : Char) : Nat := c.toNat - 48

/-- Digit string to number, `int()` on a digit-only token. -/
def digitsToNat (l : List Char) : Nat :=
  l.foldl (fun a c => a * 10 + c2n c) 0

/-! ## Identifier normalization (`re.sub(r"v\d+$", "", x)`)

The regex `v\d+$` matches, when the string ends with a digit run
preceded by the letter `v`, exactly that final `v<digits>` block (the
leftmost-match rule forces the maximal trailing digit run).  We work on
the reversed character list. -/

/-- One application of `re.sub(r"v\d+$", "", ·)` on a reversed list:
when the list starts with a nonempty digit run followed by `v`, drop
both; otherwise no match, return the list unchanged. -/
def stripVerRev (r : List Char) : List Char :=
  if (r.takeWhile Char.isDigit).isEmpty then r
  else if (r.dropWhile Char.isDigit).head? == some 'v' then
    (r.dropWhile Char.isDigit).tail
  else r

/-- Python `re.sub(r"v\d+$", "", s)`: strip a trailing version suffix. -/
def stripVersion (s : String) : String :=
  String.mk ((stripVerRev s.data.reverse).reverse)

/-- Does `s` end with `v` followed by one or more digits?  (Exactly when
`re.sub(r"v\d+$", "", ·)` changes the string.) -/
def hasTrailingV (s : String) : Bool :=
  let r := s.data.reverse
  !(r.takeWhile Char.isDigit).isEmpty &&
    ((r.dropWhile Char.isDigit).head? == some 'v')

/-- Does `s` end with two stacked version suffixes `v<digits>v<digits>`? -/
def endsStacked (s : String) : Bool :=
  let r := s.data.reverse
  let r1 := r.dropWhile Char.isDigit
  !(r.takeWhile Char.isDigit).isEmpty && (r1.head? == some 'v') &&
    (!((r1.tail).takeWhile Char.isDigit).isEmpty &&
      (((r1.tail).dropWhile Char.isDigit).head? == some 'v'))

/-! ## The canonical paper record (`make_paper`)

`announce_type` models the raw dictionary entry: `none` is an absent
key, `some none` is a stored Python `None`, `some (some s)` is a stored
string.  `make_paper` always stores a string; `filter_new_only` reads
the field defensively with `dict.get`. -/

structure Paper where
  arxiv_id : String
  title : String
  authors : List String
  abstract : String
  categories : List String
  primary_category : String
  published : String
  updated : String
  comment : String
  journal_ref : String
  doi : String
  announce_type : Option (Option String)
deriving DecidableEq, Repr

/-- `make_paper` from `arxiv_fetch.py`: build a normalized paper dict. -/
def make_paper (arxiv_id title : String) (authors : List String)
    (abstract : String) (categories : List String)
    (primary_category published updated comment journal_ref doi
      announce_type : String) : Paper :=
  { arxiv_id := pystrip arxiv_id
    title := wsCollapse title
    authors := authors
    abstract := wsCollapse abstract
    categories := categories
    primary_category :=
      if primary_category != "" then primary_category
      else match categories with
        | c :: _ => c
        | [] => ""
    published := published
    updated := updated
    comment := comment
    journal_ref := journal_ref
    doi := doi
    announce_type := some (some announce_type) }

/-! ## Deduplication and announce-type filtering -/

/-- The deduplication key of a record: its version-stripped identifier. -/
def dedupKey (p : Paper) : String := stripVersion p.arxiv_id

/-- The loop of `deduplicate`, with the `seen` set made explicit. -/
def dedupGo (seen : List String) : List Paper → List Paper
  | [] => []
  | p :: rest =>
    let key := dedupKey p
    if key ∈ seen then dedupGo seen rest
    else p :: dedupGo (key :: seen) rest

/-- `deduplicate` from `arxiv_fetch.py`: remove duplicate papers by
version-stripped `arxiv_id`, keeping the first occurrence. -/
def deduplicate (papers : List Paper) : List Paper :=
  dedupGo [] papers

/-- `p.get("announce_type", "new")`: the stored value when the key is
present (possibly Python `None`), the default `"new"` otherwise. -/
def getAnnounceType (p : Paper) : Option String :=
  p.announce_type.getD (some "new")

/-- The allow-tuple of `filter_new_only`. -/
def allowedAnnounce : List (Option String) :=
  [some "new", some "cross", some "cross-list", some ""]

/-- `filter_new_only` from `arxiv_fetch.py`: keep only new submissions
(announce type in the allow-tuple; a Python `None` value is not). -/
def filter_new_only (papers : List Paper) : List Paper :=
  papers.filter (fun p => allowedAnnounce.contains (getAnnounceType p))

/-- The always-applied post-processing of `fetch_papers`:
deduplicate, then (unless replacements were requested) filter. -/
def fetchPostProcess (papers : List Paper) (include_replacements : Bool) :
    List Paper :=
  let d := deduplicate papers
  if include_replacements then d else filter_new_only d

/-! ## Identifier extraction in the three source parsers -/

/-- The suffix after the last non-overlapping occurrence of `/abs/`,
when present (`raw.split("/abs/")[-1]` when `"/abs/" in raw`). -/
def afterAbs : List Char → Option (List Char)
  | '/' :: 'a' :: 'b' :: 's' :: '/' :: rest =>
    match afterAbs rest with
    | some t => some t
    | none => some rest
  | _ :: cs => afterAbs cs
  | [] => none

/-- The identifier candidate of an Atom `<id>` value, before version
stripping: the part after `/abs/` when that marker occurs, else the raw
string. -/
def idCandidate (raw : String) : String :=
  match afterAbs raw.data with
  | some t => String.mk t
  | none => raw

/-- Identifier extraction of `_parse_api_entry` (lines 307–310 of
`arxiv_fetch.py`): take the part after `/abs/`, then strip the version. -/
def parse_api_entry_id (raw : String) : String :=
  stripVersion (idCandidate raw)

/-- Identifier extraction of `_parse_rss_entry` (lines 392–394), textually
identical to the id extraction of the API parser. -/
def parse_rss_entry_id (raw : String) : String :=
  stripVersion (idCandidate raw)

/-- Replace every non-overlapping occurrence of `/abs/` by the empty
string (`href.replace("/abs/", "")`). -/
def replaceAbs : List Char → List Char
  | '/' :: 'a' :: 'b' :: 's' :: '/' :: rest => replaceAbs rest
  | c :: cs => c :: replaceAbs cs
  | [] => []

/-- Identifier capture of `ArxivListParser.handle_starttag` (lines
466–469): when the anchor href starts with `/abs/`, store
`href.replace("/abs/", "").strip()` — note: no version stripping. -/
def html_capture_id (href : String) : Option String :=
  if pyStartsWith href "/abs/" then
    some (pystrip (String.mk (replaceAbs href.data)))
  else none

/-! ## Fuzzy same-person check (`_is_same_person` in `build_profile.py`)

The function receives the two lowercased names together with the two
token *sets* the callers precompute as `set(name.split())`; it tests the
set sizes but recomputes the token lists itself. -/

/-- `_is_same_person` from `build_profile.py`. -/
def is_same_person (name1_lower : String) (name1_parts : List String)
    (name2_lower : String) (name2_parts : List String) : Bool :=
  if name1_lower == name2_lower then true
  else if 2 ≤ name1_parts.length && 2 ≤ name2_parts.length then
    let parts1 := pysplit name1_lower
    let parts2 := pysplit name2_lower
    if parts1.getLastD "" == parts2.getLastD "" then
      let first1 := rstripDot (parts1.headD "")
      let first2 := rstripDot (parts2.headD "")
      if first1 == first2 then true
      else if first1.length == 1 && pyStartsWith first2 first1 then true
      else if first2.length == 1 && pyStartsWith first1 first2 then true
      else false
    else false
  else false

/-- The claim C6 predicate, written from the claim text: the two names
are equal, or both have at least two space-separated *tokens*, their
last tokens are equal, and the first tokens (trailing dots stripped)
are equal or one is a single letter that is a prefix of the other. -/
def sameSpecClaimC6 (n1 n2 : String) : Bool :=
  n1 == n2 ||
    (let t1 := pysplit n1
     let t2 := pysplit n2
     2 ≤ t1.length && 2 ≤ t2.length &&
       (t1.getLastD "" == t2.getLastD "") &&
       (let f1 := rstripDot (t1.headD "")
        let f2 := rstripDot (t2.headD "")
        f1 == f2 || (f1.length == 1 && pyStartsWith f2 f1) ||
          (f2.length == 1 && pyStartsWith f1 f2)))

/-- The amended claim C6 predicate: as `sameSpecClaimC6`, but requiring
at least two *distinct* space-separated tokens in both names (the code
tests the cardinality of the token sets, not the token counts). -/
def sameSpecAmendedC6 (n1 n2 : String) : Bool :=
  n1 == n2 ||
    (let t1 := pysplit n1
     let t2 := pysplit n2
     2 ≤ t1.dedup.length && 2 ≤ t2.dedup.length &&
       (t1.getLastD "" == t2.getLastD "") &&
       (let f1 := rstripDot (t1.headD "")
        let f2 := rstripDot (t2.headD "")
        f1 == f2 || (f1.length == 1 && pyStartsWith f2 f1) ||
          (f2.length == 1 && pyStartsWith f1 f2)))

/-! ## Calendar model

`datetime.date` arithmetic (`timedelta`, comparison) is ordinal
arithmetic on proleptic-Gregorian rata-die numbers (`0001-01-01` is
ordinal 1); `datetime.replace` works on calendar fields and validates
the result against `MINYEAR = 1` and `MAXYEAR = 9999`.  Conversions use
the standard civil-calendar formulas. -/

/-- Gregorian leap-year test. -/
def isLeap (y : Nat) : Bool :=
  y % 4 == 0 && (y % 100 != 0 || y % 400 == 0)

/-- Number of days of month `m` of year `y` (months 1–12). -/
def daysInMonth (y m : Nat) : Nat :=
  if m == 2 then (if isLeap y then 29 else 28)
  else if m == 4 || m == 6 || m == 9 || m == 11 then 30
  else 31

/-- Days in months `1 .. m-1` of year `y`. -/
def daysBeforeMonth (y m : Nat) : Nat :=
  let L : Nat := if isLeap y then 1 else 0
  match m with
  | 1 => 0
  | 2 => 31
  | 3 => 59 + L
  | 4 => 90 + L
  | 5 => 120 + L
  | 6 => 151 + L
  | 7 => 181 + L
  | 8 => 212 + L
  | 9 => 243 + L
  | 10 => 273 + L
  | 11 => 304 + L
  | _ => 334 + L

/-- Rata-die ordinal of the date `(y, m, d)` (`0001-01-01` ↦ 1). -/
def dateToOrd (y m d : Nat) : Nat :=
  365 * (y - 1) + (y - 1) / 4 - (y - 1) / 100 + (y - 1) / 400 +
    daysBeforeMonth y m + d

/-- Civil date of a rata-die ordinal (valid for `1 ≤ n`); the standard
era-based conversion with the era origin at `0000-03-01`. -/
def ordToDate (n : Nat) : Nat × Nat × Nat :=
  let z := n + 305
  let era := z / 146097
  let doe := z % 146097
  let yoe := (doe - doe / 1460 + doe / 36524 - doe / 146096) / 365
  let y' := yoe + era * 400
  let doy := doe - (365 * yoe + yoe / 4 - yoe / 100)
  let mp := (5 * doy + 2) / 153
  let d := doy - (153 * mp + 2) / 5 + 1
  let m := if mp < 10 then mp + 3 else mp - 9
  (if m ≤ 2 then y' + 1 else y', m, d)

/-- Two-digit zero-padded numeral (`%m`, `%d`). -/
def pad2 (n : Nat) : List Char :=
  [Char.ofNat (48 + n / 10 % 10), Char.ofNat (48 + n % 10)]

/-- Four-digit zero-padded numeral (`%Y`; CPython zero-pads years below
1000 only on some platforms, and every date handled by the theorems
below has a four-digit year). -/
def pad4 (n : Nat) : List Char :=
  [Char.ofNat (48 + n / 1000 % 10), Char.ofNat (48 + n / 100 % 10),
   Char.ofNat (48 + n / 10 % 10), Char.ofNat (48 + n % 10)]

/-- `strftime("%Y%m%d")` of a date triple. -/
def fmtYMD (y m d : Nat) : String :=
  String.mk (pad4 y ++ pad2 m ++ pad2 d)

/-- `strftime("%Y%m%d")` of an ordinal. -/
def fmt8 (n : Nat) : String :=
  match ordToDate n with
  | (y, m, d) => fmtYMD y m d

/-- `datetime.strptime(s, "%Y%m%d")`, as the ordinal of the parsed
date: exactly eight digits, year ≥ 1, month 1–12, day within the
month.  `none` models the `ValueError` raised otherwise. -/
def strptime8 (s : String) : Option Nat :=
  match s.data with
  | [c1, c2, c3, c4, c5, c6, c7, c8] =>
    if (c1.isDigit && c2.isDigit && c3.isDigit && c4.isDigit &&
        c5.isDigit && c6.isDigit && c7.isDigit && c8.isDigit) then
      let y := digitsToNat [c1, c2, c3, c4]
      let m := digitsToNat [c5, c6]
      let d := digitsToNat [c7, c8]
      if 1 ≤ y && 1 ≤ m && m ≤ 12 && 1 ≤ d && d ≤ daysInMonth y m then
        some (dateToOrd y m d)
      else none
    else none
  | _ => none

/-! ## Date chunking (`_build_date_chunks` in `arxiv_fetch.py`) -/

/-- The `while cursor <= end` loop of `_build_date_chunks`, on
ordinals, with an explicit iteration budget (every iteration advances
the cursor by at least one day, so a budget of `e + 1 - c` days is
exact): emit `(cursor, min(cursor + (k-1), e))` and restart one day
after the chunk end. -/
def chunksGo : Nat → Nat → Nat → Nat → List (Nat × Nat)
  | 0, _, _, _ => []
  | fuel + 1, c, e, k =>
    if c ≤ e then
      (c, min (c + (k - 1)) e) :: chunksGo fuel (min (c + (k - 1)) e + 1) e k
    else []

/-- The chunk list for the inclusive ordinal range `[c, e]` with chunk
size `k`. -/
def chunksOrd (c e k : Nat) : List (Nat × Nat) :=
  chunksGo (e + 1 - c) c e k

/-- `_build_date_chunks(date_from, date_to, chunk_days)`: parse both
bounds (a `ValueError` is modelled by `none`), swap them when reversed,
clamp the chunk size to at least one day, and run the chunk loop,
formatting each chunk bound with `strftime("%Y%m%d")`. -/
def build_date_chunks (date_from date_to : String) (chunk_days : Int) :
    Option (List (String × String)) :=
  match strptime8 date_from, strptime8 date_to with
  | some s0, some e0 =>
    let s := min s0 e0
    let e := max s0 e0
    let k := (max 1 chunk_days).toNat
    some ((chunksOrd s e k).map (fun p => (fmt8 p.1, fmt8 p.2)))
  | _, _ => none

/-! ## Period parsing (`parse_period` in `arxiv_fetch.py`)

The `week` / `month` / `Nd` branches depend on `datetime.now()`, which
is passed in as the `now` rata-die ordinal.  A `ValueError` escaping
`parse_period` (possible in the `YYYY-MM` branch) is modelled by
`none`. -/

/-- Match of `^(\d{1,3})d$` with the numeric group. -/
def matchNd (l : List Char) : Option Nat :=
  if l.getLast? == some 'd' then
    let ds := l.dropLast
    if 1 ≤ ds.length && ds.length ≤ 3 && ds.all Char.isDigit then
      some (digitsToNat ds)
    else none
  else none

/-- Match of `^\d{4}-\d{2}-\d{2}$`. -/
def matchSingleDate : List Char → Bool
  | [a, b, c, d, '-', e, f, '-', g, h] =>
    a.isDigit && b.isDigit && c.isDigit && d.isDigit &&
      e.isDigit && f.isDigit && g.isDigit && h.isDigit
  | _ => false

/-- Match of `^\d{4}-\d{2}$`. -/
def matchMonth : List Char → Bool
  | [a, b, c, d, '-', e, f] =>
    a.isDigit && b.isDigit && c.isDigit && d.isDigit &&
      e.isDigit && f.isDigit
  | _ => false

/-- Python `period.split(":")`: split at every colon. -/
def splitColon : List Char → List (List Char)
  | [] => [[]]
  | c :: rest =>
    match splitColon rest with
    | [] => [[c]]
    | h :: t => if c == ':' then [] :: h :: t else (c :: h) :: t

/-- `_normalize_ymd` from `arxiv_fetch.py`: remove dashes, require
exactly eight digits forming a valid `%Y%m%d` date, return the token
(the empty list models the falsy empty string). -/
def normalize_ymd (l : List Char) : List Char :=
  let token := l.filter (fun c => c != '-')
  if token.length == 8 && token.all Char.isDigit then
    match token with
    | [c1, c2, c3, c4, c5, c6, c7, c8] =>
      let y := digitsToNat [c1, c2, c3, c4]
      let m := digitsToNat [c5, c6]
      let d := digitsToNat [c7, c8]
      if 1 ≤ y && 1 ≤ m && m ≤ 12 && 1 ≤ d && d ≤ daysInMonth y m then token
      else []
    | _ => []
  else []

/-- The date one day earlier than `(y, m, d)` (the effect of
subtracting `timedelta(days=1)` on the calendar fields). -/
def predDate : Nat × Nat × Nat → Nat × Nat × Nat
  | (y, m, d) =>
    if 2 ≤ d then (y, m, d - 1)
    else if 2 ≤ m then (y, m - 1, daysInMonth y (m - 1))
    else (y - 1, 12, 31)

/-- The `YYYY-MM` branch of `parse_period`: `strptime(period + "-01")`,
`replace` to the first day of the next month (validated against
`MAXYEAR = 9999`), minus one day.  `none` models the `ValueError`
raised by `strptime` on an invalid month or by `replace` past 9999. -/
def monthBranch (y m : Nat) : Option (String × String × String) :=
  if y == 0 || m == 0 || 12 < m then none
  else
    let next : Option (Nat × Nat) :=
      if m == 12 then (if y + 1 ≤ 9999 then some (y + 1, 1) else none)
      else some (y, m + 1)
    match next with
    | none => none
    | some (ny, nm) =>
      match predDate (ny, nm, 1) with
      | (ey, em, ed) => some ("daterange", fmtYMD y m 1, fmtYMD ey em ed)

/-- The tail of `parse_period` after the date-range branch: the
`YYYY-MM` month shorthand, else the HTML-page fallback. -/
def monthOrFallback (p : List Char) : Option (String × String × String) :=
  if matchMonth p then monthBranch (digitsToNat (p.take 4)) (digitsToNat (p.drop 5))
  else some ("html_page", String.mk p, "")

/-- `parse_period` from `arxiv_fetch.py`.  `now` is the rata-die
ordinal of `datetime.now()`; the result is
`(mode, date_from, date_to)`, with `none` for an escaping
`ValueError`. -/
def parse_period (now : Nat) (period : String) : Option (String × String × String) :=
  let p := (pystripList period.data).map pylowerChar
  if p == "today".data then some ("today", "", "")
  else if p == "week".data || p == "pastweek".data then
    some ("daterange", fmt8 (now - 7), fmt8 now)
  else if p == "month".data || p == "pastmonth".data || p == "30d".data then
    some ("daterange", fmt8 (now - 30), fmt8 now)
  else
    match matchNd p with
    | some n =>
      let days := max 1 n
      some ("daterange", fmt8 (now - days), fmt8 now)
    | none =>
      if p == "recent".data then some ("html_page", "recent", "")
      else if matchSingleDate p then
        let d := String.mk (p.filter (fun c => c != '-'))
        some ("daterange", d, d)
      else
        match splitColon p with
        | [x, y] =>
          let d1 := normalize_ymd (pystripList x)
          let d2 := normalize_ymd (pystripList y)
          if !d1.isEmpty && !d2.isEmpty then
            some ("daterange", String.mk d1, String.mk d2)
          else monthOrFallback p
        | _ => monthOrFallback p

/-! ## Insertion-ordered counters and stable descending sort -/

/-- Increment the count of `k` in an insertion-ordered counter
(`Counter[k] += 1`): first touch appends at the end. -/
def bumpCount (m : List (String × Nat)) (k : String) : List (String × Nat) :=
  match m with
  | [] => [(k, 1)]
  | (k', v) :: rest =>
    if k' == k then (k', v + 1) :: rest else (k', v) :: bumpCount rest k

/-- Stable insertion of `x` before the first element not strictly
greater (by `gt`): equal elements keep their original order. -/
def insDesc (gt : α → α → Bool) (x : α) : List α → List α
  | [] => [x]
  | y :: ys => if gt y x then y :: insDesc gt x ys else x :: y :: ys

/-- Stable descending sort (the semantics of Python
`sorted(..., reverse=True)` for a strict `gt` derived from the key). -/
def sortDesc (gt : α → α → Bool) : List α → List α
  | [] => []
  | x :: xs => insDesc gt x (sortDesc gt xs)

/-- `Counter.most_common(n)` for `Nat` counts: stable descending sort by
count, first `n` items. -/
def mostCommonNat (m : List (String × Nat)) (n : Nat) : List (String × Nat) :=
  (sortDesc (fun a b => b.2 < a.2) m).take n

/-- `Counter.most_common(n)` for `ℚ`-weighted counters. -/
def mostCommonRat (m : List (String × ℚ)) (n : Nat) : List (String × ℚ) :=
  (sortDesc (fun a b => b.2 < a.2) m).take n

/-- Lexicographic strict order on char lists (Python string `<`). -/
def charListLt : List Char → List Char → Bool
  | [], [] => false
  | [], _ :: _ => true
  | _ :: _, [] => false
  | c :: cs, d :: ds => c < d || (c == d && charListLt cs ds)

/-- `dict(sorted(counter.items()))` for string keys: ascending stable
sort by key. -/
def sortByKeyStr (m : List (String × Nat)) : List (String × Nat) :=
  sortDesc (fun a b => charListLt a.1.data b.1.data) m

/-! ## Collaboration network (`build_network` in `build_profile.py`) -/

/-- The per-co-author accumulator of `build_network`
(`defaultdict(lambda: dict(count 0, last_year 0, papers []))`). -/
structure CoData where
  count : Nat
  last_year : Nat
  papers : List String
deriving DecidableEq, Repr

/-- The defaultdict default value. -/
def coDefault : CoData := { count := 0, last_year := 0, papers := [] }

/-- Look up a co-author entry, defaulting like the `defaultdict`. -/
def lookupCo (m : List (String × CoData)) (k : String) : CoData :=
  ((m.find? (fun pr => pr.1 == k)).map Prod.snd).getD coDefault

/-- Update (or append, preserving insertion order) a co-author entry. -/
def updateCo (m : List (String × CoData)) (k : String) (f : CoData → CoData) :
    List (String × CoData) :=
  match m with
  | [] => [(k, f coDefault)]
  | (k', v) :: rest =>
    if k' == k then (k', f v) :: rest else (k', v) :: updateCo rest k f

/-- Year derivation for one paper: a four-digit prefix of `published`,
else `20` plus the first two digits of a `YYMM.`-numbered identifier. -/
def yearOf (paper : Paper) : Option Nat :=
  match paper.published.data with
  | c1 :: c2 :: c3 :: c4 :: _ =>
    if c1.isDigit && c2.isDigit && c3.isDigit && c4.isDigit then
      some (digitsToNat [c1, c2, c3, c4])
    else yearOfId paper
  | _ => yearOfId paper
where
  /-- The `^(\d{2})\d{2}\.` fallback on the identifier. -/
  yearOfId (paper : Paper) : Option Nat :=
    match paper.arxiv_id.data with
    | c1 :: c2 :: c3 :: c4 :: '.' :: _ =>
      if c1.isDigit && c2.isDigit && c3.isDigit && c4.isDigit then
        some (2000 + digitsToNat [c1, c2])
      else none
    | _ => none

/-- Process the author list of one paper: skip fuzzy self-matches,
count the rest, record the paper id, update the latest shared year. -/
def processAuthors (userLower : String) (userParts : List String)
    (yr : Option Nat) (aid : String) (co : List (String × CoData))
    (authors : List String) : List (String × CoData) :=
  authors.foldl (fun acc author =>
    let al := pystrip (pylower author)
    if is_same_person userLower userParts al (pyset al) then acc
    else
      updateCo acc author (fun dta =>
        { count := dta.count + 1
          last_year :=
            match yr with
            | some y => max dta.last_year y
            | none => dta.last_year
          papers := dta.papers ++ [aid] })) co

/-- The accumulation state of the paper loop of `build_network`. -/
structure NetState where
  coauthors : List (String × CoData)
  topic_words : List (String × ℚ)
  category_counts : List (String × Nat)
  year_counts : List (String × Nat)
deriving Repr

/-- Add `w` to the weight of `k` in a `ℚ`-weighted counter. -/
def bumpRat (m : List (String × ℚ)) (k : String) (w : ℚ) : List (String × ℚ) :=
  match m with
  | [] => [(k, w)]
  | (k', v) :: rest =>
    if k' == k then (k', v + w) :: rest else (k', v) :: bumpRat rest k w

/-- Is the character an ASCII letter after lowercasing? -/
def kwIsAlpha (c : Char) : Bool := ('a' ≤ c && c ≤ 'z')

/-- Is the character allowed in the tail of a keyword token
(`[a-zA-Z0-9-]` after lowercasing)? -/
def kwIsTail (c : Char) : Bool := ('a' ≤ c && c ≤ 'z') || c.isDigit || c == '-'

/-- One pass of the keyword tokenizer: `cur` is the reversed current
match (nonempty exactly while inside a match started by a letter).  A
character ending a match cannot start the next one (letters are tail
characters), so the scan may always consume it. -/
def keywordGo (cur : List Char) : List Char → List (List Char)
  | [] => if 2 ≤ cur.length then [cur.reverse] else []
  | c :: cs =>
    if cur.isEmpty then
      if kwIsAlpha c then keywordGo [c] cs else keywordGo [] cs
    else
      if kwIsTail c then keywordGo (c :: cur) cs
      else if 2 ≤ cur.length then cur.reverse :: keywordGo [] cs
      else keywordGo [] cs

/-- Leftmost non-overlapping greedy matches of the token regex
`[a-zA-Z][a-zA-Z0-9-]+` on lowercased text (a letter followed by at
least one more letter/digit/hyphen). -/
def keywordTokens (l : List Char) : List (List Char) :=
  keywordGo [] l

/-- The `_STOP_WORDS` set of `build_profile.py`. -/
def stopWords : List String :=
    ["a", "an", "the", "of", "in", "on", "at", "to", "for", "and", "or",
     "is", "are", "was", "were", "be", "been", "being", "with", "from",
     "by", "as", "it", "its", "this", "that", "these", "those", "we",
     "our", "us", "their", "they", "them", "which", "what", "how", "when",
     "where", "who", "will", "can", "may", "using", "via", "between",
     "into", "through", "during", "before", "after", "above", "below",
     "up", "down", "new", "first", "two", "three", "one", "based",
     "study", "analysis", "results", "data", "model", "method", "approach",
     "paper", "show", "find", "also", "than", "more", "most", "not", "no",
     "but", "if", "about", "each", "all", "both", "do", "does", "did",
     "has", "have", "had", "such", "only", "very", "just", "over", "under",
     "then", "so", "well", "here", "there", "some", "any", "other"]

/-- `_extract_keywords`: lowercase tokens matching
`[a-zA-Z][a-zA-Z0-9-]+` (ASCII letter then at least one more
letter/digit/hyphen), minus stop words and tokens of length ≤ 2. -/
def extract_keywords (text : String) : List String :=
  ((keywordTokens (text.data.map pylowerChar)).filter
    (fun t => !(stopWords.contains (String.mk t)) && 2 < t.length)).map
    String.mk

/-- Process one paper in the `build_network` loop. -/
def processPaper (userLower : String) (userParts : List String)
    (st : NetState) (paper : Paper) : NetState :=
  let yr := yearOf paper
  let years :=
    match yr with
    | some y => bumpCount st.year_counts (String.mk (pad4 y))
    | none => st.year_counts
  let cats := paper.categories.foldl bumpCount st.category_counts
  let co := processAuthors userLower userParts yr paper.arxiv_id
    st.coauthors paper.authors
  let tw1 := (extract_keywords paper.title).foldl
    (fun acc w => bumpRat acc w 1) st.topic_words
  let tw2 := (extract_keywords paper.abstract).foldl
    (fun acc w => bumpRat acc w (3 / 10)) tw1
  { coauthors := co, topic_words := tw2, category_counts := cats,
    year_counts := years }

/-- The final co-author accumulator over a paper list. -/
def coauthorsOf (papers : List Paper) (user_name : String) :
    List (String × CoData) :=
  let userLower := pystrip (pylower user_name)
  let userParts := pyset userLower
  (papers.foldl (processPaper userLower userParts)
    { coauthors := [], topic_words := [], category_counts := [],
      year_counts := [] }).coauthors

/-- The full (untruncated) co-author ranking: keys in insertion order,
stably sorted by descending count. -/
def fullCoauthorRank (papers : List Paper) (user_name : String) : List String :=
  (sortDesc (fun a b => b.2.count < a.2.count)
    (coauthorsOf papers user_name)).map Prod.fst

/-- Python `round(q, 1)` (modelled with round-half-up on `ℚ`; the code
only applies it to keyword weights, which no claim depends on). -/
def roundQ1 (q : ℚ) : ℚ := (round (q * 10) : ℤ) / 10

/-- The collaboration network returned by `build_network`, extended
with the two fields added later by `expand_network_second_degree`
(empty lists model the keys being absent). -/
structure Network where
  coauthors : List (String × CoData)
  coauthor_rank : List String
  active_coauthors : List String
  topic_keywords : List (String × ℚ)
  active_categories : List (String × Nat)
  publication_years : List (String × Nat)
  second_degree : List (String × Nat)
  second_degree_rank : List String
deriving DecidableEq, Repr

/-- `build_network(papers, user_name)` from `build_profile.py`;
`current_year` is `datetime.now().year`. -/
def build_network (papers : List Paper) (user_name : String)
    (current_year : Nat) : Network :=
  let userLower := pystrip (pylower user_name)
  let userParts := pyset userLower
  let st := papers.foldl (processPaper userLower userParts)
    { coauthors := [], topic_words := [], category_counts := [],
      year_counts := [] }
  let coauthors := st.coauthors
  let coauthor_rank :=
    (sortDesc (fun a b => b.2.count < a.2.count) coauthors).map Prod.fst
  let active_coauthors := coauthor_rank.filter
    (fun name => current_year - 3 ≤ (lookupCo coauthors name).last_year)
  let top_topics := (mostCommonRat st.topic_words 50).map
    (fun pr => (pr.1, roundQ1 pr.2))
  let coauthor_data := (coauthor_rank.take 100).map
    (fun name =>
      let dta := lookupCo coauthors name
      (name, { dta with papers := dta.papers.take 10 }))
  { coauthors := coauthor_data
    coauthor_rank := coauthor_rank.take 100
    active_coauthors := active_coauthors.take 50
    topic_keywords := top_topics
    active_categories := mostCommonNat st.category_counts 20
    publication_years := sortByKeyStr st.year_counts
    second_degree := []
    second_degree_rank := [] }

/-! ## Second-degree expansion (`expand_network_second_degree`)

The network fetch `search_author_papers(name, max_papers=...)` is
abstracted as a function from the co-author name to the fetched paper
list; `none` models an exception, which the code logs and skips. -/

/-- The global second-degree co-occurrence counter: every author on
every fetched paper of the top-`top_n` co-authors, excluding each
collaborator themselves via the fuzzy check. -/
def secondDegreeCounter (fetch : String → Option (List Paper))
    (net : Network) (top_n : Nat) : List (String × Nat) :=
  (net.coauthor_rank.take top_n).foldl
    (fun acc cname =>
      match fetch cname with
      | none => acc
      | some papers =>
        papers.foldl
          (fun acc2 paper =>
            paper.authors.foldl
              (fun acc3 author =>
                let al := pystrip (pylower author)
                if is_same_person (pylower cname) (pyset (pylower cname))
                    al (pyset al) then acc3
                else bumpCount acc3 author)
              acc2)
          acc)
    []

/-- `expand_network_second_degree(network, top_n, ...)`: take the top
200 counts, remove first-degree names, expose the top 100
names/counts. -/
def expand_network_second_degree (fetch : String → Option (List Paper))
    (net : Network) (top_n : Nat) : Network :=
  let second_degree := secondDegreeCounter fetch net top_n
  let first_degree := net.coauthor_rank
  let second_only := (mostCommonNat second_degree 200).filter
    (fun pr => !(first_degree.contains pr.1))
  { net with
      second_degree := second_only.take 100
      second_degree_rank := (second_only.map Prod.fst).take 100 }

/-- The claim C9 pipeline, written from the claim text: build the
counter, *subtract* the first-degree set, *then* keep the top 200
counts, and expose the top 100 names/counts. -/
def secondDegreeSpecC9 (fetch : String → Option (List Paper))
    (net : Network) (top_n : Nat) : List (String × Nat) :=
  let ctr := secondDegreeCounter fetch net top_n
  let subtracted := ctr.filter (fun pr => !(net.coauthor_rank.contains pr.1))
  (mostCommonNat subtracted 200).take 100

/-! ## Concrete example inputs used by the claim instances -/

/-- A minimal record (all optional fields empty; `announce_type` key
absent unless stated). -/
def plainPaper (aid : String) (authors : List String) (pub : String) : Paper :=
  { arxiv_id := aid, title := "", authors := authors, abstract := "",
    categories := [], primary_category := "", published := pub,
    updated := "", comment := "", journal_ref := "", doi := "",
    announce_type := none }

/-- A record with a given stored announce type (possibly `None`). -/
def annPaper (aid : String) (ann : Option (Option String)) : Paper :=
  { plainPaper aid [] "" with announce_type := ann }

/-- Two records carrying versioned identifiers of the same paper, as
the HTML-listing parser would emit them (no version stripping). -/
def rV1 : Paper :=
  make_paper "2511.00001v1" "T" [] "" [] "" "" "" "" "" "" "new"

/-- Second version of the same paper. -/
def rV2 : Paper :=
  make_paper "2511.00001v2" "T" [] "" [] "" "" "" "" "" "" "new"

/-- The five-record input of claim C5, plus one record with the
`announce_type` key absent. -/
def c5New : Paper := annPaper "i1" (some (some "new"))

/-- A record with announce type `"replacement"`. -/
def c5Repl : Paper := annPaper "i2" (some (some "replacement"))

/-- A record with announce type `"cross"`. -/
def c5Cross : Paper := annPaper "i3" (some (some "cross"))

/-- A record with announce type `""`. -/
def c5Empty : Paper := annPaper "i4" (some (some ""))

/-- A record whose stored announce type is Python `None`. -/
def c5None : Paper := annPaper "i5" (some none)

/-- A record with no `announce_type` key at all. -/
def c5Absent : Paper := annPaper "i6" none

/-- The claim C5 input list. -/
def c5Input : List Paper := [c5New, c5Repl, c5Cross, c5Empty, c5None, c5Absent]

/-- C8 counterexample, paper one: the user with 100 distinct
co-authors, published in 2000. -/
def c8PaperOld : Paper :=
  plainPaper "p1" ("zz zz" :: (List.range 100).map (fun i => "a" ++ toString i))
    "2000-01-01"

/-- C8 counterexample, paper two: the user with co-author `x`,
published in 2026. -/
def c8PaperNew : Paper := plainPaper "p2" ["zz zz", "x"] "2026-01-01"

/-- The C8 counterexample network. -/
def c8Net : Network := build_network [c8PaperOld, c8PaperNew] "zz zz" 2026

/-- C9 counterexample: one fetched paper whose author list contains 101
first-degree names and 101 fresh names. -/
def c9BigPaper : Paper :=
  plainPaper "b"
    ((List.range 101).map (fun i => "f" ++ toString i) ++
      (List.range 101).map (fun i => "g" ++ toString i)) ""

/-- C9 counterexample: a network whose first-degree rank holds 102
names (a legal input of `expand_network_second_degree`; networks built
by `build_network` stay within 100). -/
def c9Net : Network :=
  { coauthors := []
    coauthor_rank := "c1" :: (List.range 101).map (fun i => "f" ++ toString i)
    active_coauthors := [], topic_keywords := [], active_categories := []
    publication_years := [], second_degree := [], second_degree_rank := [] }

/-- C9 counterexample fetch: the top collaborator `c1` has the big
paper, everyone else has none. -/
def c9Fetch : String → Option (List Paper) :=
  fun n => if n == "c1" then some [c9BigPaper] else some []

/-! # Theorems -/

/-! ## Generic helper lemmas -/

/-- Rebuilding a string from its character list is the identity. -/
theorem stringMkData (s : String) : String.mk s.data = s := by
  cases s; rfl

/-- Character lists of different lengths are not `BEq`-equal. -/
theorem beqFalseOfLengthNe (l1 l2 : List Char) (h : l1.length ≠ l2.length) :
    (l1 == l2) = false := by
  rw [beq_eq_false_iff_ne]
  intro he
  exact h (by rw [he])

/-! ## Version stripping: the claim C7 family -/

/-- If `s` has no trailing version suffix, stripping is the identity. -/
theorem stripVersion_eq_self (s : String) (h : hasTrailingV s = false) :
    stripVersion s = s := by
  unfold hasTrailingV at h
  unfold stripVersion stripVerRev
  by_cases he : (s.data.reverse.takeWhile Char.isDigit).isEmpty = true
  · simp [he, stringMkData]
  · have hv : ((s.data.reverse.dropWhile Char.isDigit).head? == some 'v') = false := by
      simp only [Bool.and_eq_false_iff, Bool.not_eq_false'] at h
      rcases h with h | h
      · exact absurd h he
      · exact h
    simp [he, hv, stringMkData]

/-- One stripping application removes the trailing suffix; the result
has a fresh trailing suffix exactly when the input had two stacked
suffixes.  Hence: no stacked suffixes means the stripped result is
suffix-free. -/
theorem hasTrailingV_stripVersion (s : String) (h : endsStacked s = false) :
    hasTrailingV (stripVersion s) = false := by
  by_cases h1 : hasTrailingV s = true
  · unfold hasTrailingV at h1
    simp only [Bool.and_eq_true, Bool.not_eq_true'] at h1
    obtain ⟨he, hv⟩ := h1
    unfold endsStacked at h
    simp only [he, hv, Bool.not_false, Bool.true_and] at h
    unfold stripVersion stripVerRev
    simp only [he, hv, if_true, if_false, Bool.false_eq_true, ite_false, ite_true]
    unfold hasTrailingV
    simp only [String.data]
    rw [List.reverse_reverse]
    exact h
  · rw [stripVersion_eq_self s (by simpa using h1)]
    simpa using h1

/-- Claim C7, amended: identifier normalization
`x ↦ re.sub(r"v\d+$", "", x)` is idempotent on every string that does
not end in two stacked version suffixes `v<digits>v<digits>`
(on such strings the first application exposes the second suffix, which
a second application then also removes). -/
theorem stripVersion_idempotent (s : String) (h : endsStacked s = false) :
    stripVersion (stripVersion s) = stripVersion s :=
  stripVersion_eq_self _ (hasTrailingV_stripVersion s h)

/-- Witness for the amended claim C7 at the identifier shape the
repository itself produces. -/
theorem stripVersion_idempotent_witness :
    endsStacked "2511.00001v1" = false ∧
      stripVersion (stripVersion "2511.00001v1") = stripVersion "2511.00001v1" :=
  ⟨by decide, stripVersion_idempotent "2511.00001v1" (by decide)⟩

/-- Counterexample to claim C7 as stated: normalization is not
idempotent on every string; `"v1v2"` strips to `"v1"`, which strips
again to `""`. -/
theorem stripVersion_not_idempotent :
    stripVersion (stripVersion "v1v2") ≠ stripVersion "v1v2" := by decide

/-! ## Deduplication: the claims C1 and C10 -/

/-- The dedup loop output is a subsequence of its input. -/
theorem dedupGo_sublist (seen : List String) (l : List Paper) :
    (dedupGo seen l).Sublist l := by
  induction l generalizing seen with
  | nil => simp [dedupGo]
  | cons p rest ih =>
    unfold dedupGo
    by_cases h : dedupKey p ∈ seen
    · simp only [h, if_true, ite_true]
      exact (ih seen).trans (List.sublist_cons_self p rest)
    · simp only [h, if_false, ite_false]
      exact (ih (dedupKey p :: seen)).cons₂ p

/-- Keys already seen never occur in the dedup loop output. -/
theorem dedupGo_filter_of_seen (k : String) (seen : List String)
    (l : List Paper) (h : k ∈ seen) :
    (dedupGo seen l).filter (fun p => dedupKey p == k) = [] := by
  induction l generalizing seen with
  | nil => simp [dedupGo]
  | cons p rest ih =>
    unfold dedupGo
    by_cases hp : dedupKey p ∈ seen
    · simp only [hp, if_true, ite_true]
      exact ih seen h
    · have hne : dedupKey p ≠ k := fun he => hp (he ▸ h)
      simp only [hp, if_false, ite_false, List.filter_cons]
      simp only [beq_eq_false_iff_ne.mpr hne, Bool.false_eq_true, if_false, ite_false]
      exact ih (dedupKey p :: seen) (List.mem_cons_of_mem _ h)

/-- For an unseen key, the dedup loop keeps exactly the first record of
the input bearing that key (and nothing else). -/
theorem dedupGo_filter_of_not_seen (k : String) (seen : List String)
    (l : List Paper) (h : k ∉ seen) :
    (dedupGo seen l).filter (fun p => dedupKey p == k) =
      (l.find? (fun p => dedupKey p == k)).toList := by
  induction l generalizing seen with
  | nil => simp [dedupGo]
  | cons p rest ih =>
    unfold dedupGo
    by_cases hk : dedupKey p = k
    · have hp : dedupKey p ∉ seen := fun hin => h (hk ▸ hin)
      simp only [hp, if_false, ite_false, List.filter_cons, List.find?,
        beq_iff_eq.mpr hk, if_true, ite_true]
      rw [dedupGo_filter_of_seen k (dedupKey p :: seen) rest (by simp [hk])]
      rfl
    · have hne : (dedupKey p == k) = false := beq_eq_false_iff_ne.mpr hk
      by_cases hp : dedupKey p ∈ seen
      · simp only [hp, if_true, ite_true, List.find?, hne, Bool.false_eq_true,
          if_false, ite_false]
        exact ih seen h
      · simp only [hp, if_false, ite_false, List.filter_cons, List.find?, hne,
          Bool.false_eq_true, if_false, ite_false]
        refine ih (dedupKey p :: seen) ?_
        simp only [List.mem_cons, not_or]
        exact ⟨fun he => hk he.symm, h⟩

/-- Keys of the dedup loop output are distinct and disjoint from `seen`. -/
theorem dedupGo_keys_nodup (seen : List String) (l : List Paper) :
    ((dedupGo seen l).map dedupKey).Nodup ∧
      ∀ k ∈ seen, k ∉ (dedupGo seen l).map dedupKey := by
  induction l generalizing seen with
  | nil => simp [dedupGo]
  | cons p rest ih =>
    unfold dedupGo
    by_cases h : dedupKey p ∈ seen
    · simp only [h, if_true, ite_true]
      exact ih seen
    · simp only [h, if_false, ite_false, List.map_cons, List.nodup_cons]
      obtain ⟨h1, h2⟩ := ih (dedupKey p :: seen)
      refine ⟨⟨h2 _ (by simp), h1⟩, ?_⟩
      intro k hk
      simp only [List.mem_cons]
      rintro (rfl | hmem)
      · exact h hk
      · exact h2 k (List.mem_cons_of_mem _ hk) hmem

/-- Claim C1: for every input list and every version-stripped key, the
deduplicated output contains exactly the first input record whose
identifier strips to that key (and none, when no input record does);
output keys are pairwise distinct, so there is exactly one output
record per distinct stripped identifier. -/
theorem deduplicate_C1 (papers : List Paper) (k : String) :
    ((deduplicate papers).map dedupKey).Nodup ∧
      (deduplicate papers).filter (fun p => dedupKey p == k) =
        (papers.find? (fun p => dedupKey p == k)).toList :=
  ⟨(dedupGo_keys_nodup [] papers).1,
    dedupGo_filter_of_not_seen k [] papers (by simp)⟩

/-- Claim C10: `deduplicate` never modifies a record — the output is a
subsequence of the input, and every output element is, field for field,
an element of the input. -/
theorem deduplicate_C10 (papers : List Paper) :
    (deduplicate papers).Sublist papers ∧
      (deduplicate papers).all (fun p => papers.contains p) = true := by
  refine ⟨dedupGo_sublist [] papers, ?_⟩
  rw [List.all_eq_true]
  intro p hp
  have hmem : p ∈ papers := (dedupGo_sublist [] papers).mem hp
  simpa using hmem

/-! ## Announce-type filter: the claim C5 family -/

/-- Counterexample to claim C5 as stated: with
`include_replacements=False`, the record whose stored announce type is
Python `None` is also excluded (for `dict.get`, a stored `None` is not
the absent-key default `"new"`, and `None` is not in the allow-tuple),
so the output does not exclude only the `"replacement"`-typed record. -/
theorem filter_new_only_drops_none :
    c5None ∈ c5Input ∧ getAnnounceType c5None ≠ some "replacement" ∧
      c5None ∉ filter_new_only c5Input := by decide

/-- Claim C5, amended: the filter keeps exactly the records whose
announce type — the stored value when the key is present, `"new"` when
absent — is in the allow-set; on records typed new, replacement, cross,
empty, null, and key-absent, it excludes exactly the replacement-typed
and the null-typed records. -/
theorem filter_new_only_C5 :
    filter_new_only c5Input = [c5New, c5Cross, c5Empty, c5Absent] ∧
      ∀ (papers : List Paper) (p : Paper),
        p ∈ filter_new_only papers ↔
          p ∈ papers ∧ allowedAnnounce.contains (getAnnounceType p) = true := by
  refine ⟨by decide, ?_⟩
  intro papers p
  unfold filter_new_only
  rw [List.mem_filter]

/-! ## Identifier invariants across the parsers: the claim C2 family -/

/-- Counterexample to claim C2 as stated: two records carrying ids
`"2511.00001v1"` and `"2511.00001v2"` (as the HTML-listing parser emits
them) deduplicate to one record — but its id is `"2511.00001v1"`, not
the version-free `"2511.00001"`: the orchestrator strips versions only
inside the dedup key, never in the record. -/
theorem orchestrator_keeps_versioned_id :
    fetchPostProcess [rV1, rV2] false = [rV1] ∧ rV1.arxiv_id ≠ "2511.00001" := by
  decide

/-- Claim C2, amended: the API and feed parsers strip one trailing
version suffix from the id, so their records carry suffix-free ids
whenever the raw id does not stack two suffixes; the HTML-listing
parser stores the `/abs/` link target verbatim (no stripping), and
deduplication keeps the first record unchanged, so ids `2511.00001v1`
and `2511.00001v2` deduplicate to one record with id `2511.00001v1`. -/
theorem parser_id_invariants_C2 (raw : String)
    (h : endsStacked (idCandidate raw) = false) :
    hasTrailingV (parse_api_entry_id raw) = false ∧
      hasTrailingV (parse_rss_entry_id raw) = false ∧
      html_capture_id "/abs/2511.00001v1" = some "2511.00001v1" ∧
      fetchPostProcess [rV1, rV2] false = [rV1] ∧
      rV1.arxiv_id = "2511.00001v1" :=
  ⟨hasTrailingV_stripVersion _ h, hasTrailingV_stripVersion _ h,
    by decide, by decide, by decide⟩

/-- Witness for amended claim C2 at the Atom id of the module
docstring. -/
theorem parser_id_invariants_C2_witness :
    endsStacked (idCandidate "http://arxiv.org/abs/2511.10616v1") = false ∧
      hasTrailingV (parse_api_entry_id "http://arxiv.org/abs/2511.10616v1") = false :=
  ⟨by decide, (parser_id_invariants_C2 "http://arxiv.org/abs/2511.10616v1" (by decide)).1⟩

/-! ## Fuzzy same-person check: the claim C6 family -/

/-- Counterexample to claim C6 as stated: on `"j. jo"` versus
`"jo jo"`, both names have two space-separated tokens, the surnames
match and `"j"` is an initial of `"jo"`, so the claim predicate is
true; but the code tests the cardinality of the token *sets* and
`set("jo jo".split())` has one element, so the function returns
false. -/
theorem is_same_person_set_vs_tokens :
    sameSpecClaimC6 "j. jo" "jo jo" = true ∧
      is_same_person "j. jo" (pyset "j. jo") "jo jo" (pyset "jo jo") = false := by
  decide

/-- Claim C6, amended: called the way both call sites do (parts =
`set(name.split())`), the check returns true exactly when the
lowercase-trimmed names are equal, or both names have at least two
*distinct* space-separated tokens, their last tokens agree, and the
first tokens (trailing dots stripped) are equal or one is a one-letter
prefix of the other; the three concrete examples of the claim hold. -/
theorem is_same_person_C6 :
    (∀ n1 n2 : String,
        is_same_person n1 (pyset n1) n2 (pyset n2) = sameSpecAmendedC6 n1 n2) ∧
      is_same_person "jane doe" (pyset "jane doe") "j. doe" (pyset "j. doe") = true ∧
      is_same_person "jane doe" (pyset "jane doe") "john doe" (pyset "john doe") = false ∧
      is_same_person "jane smith" (pyset "jane smith") "jane doe" (pyset "jane doe") = false := by
  refine ⟨?_, by decide, by decide, by decide⟩
  intro n1 n2
  simp only [is_same_person, sameSpecAmendedC6, pyset]
  cases h0 : (n1 == n2) <;>
    cases ha1 : decide (2 ≤ ((pysplit n1).dedup).length) <;>
    cases ha2 : decide (2 ≤ ((pysplit n2).dedup).length) <;>
    cases hb : ((pysplit n1).getLastD "" == (pysplit n2).getLastD "") <;>
    cases hc : (rstripDot ((pysplit n1).headD "") == rstripDot ((pysplit n2).headD "")) <;>
    cases hd : ((rstripDot ((pysplit n1).headD "")).length == 1 &&
      pyStartsWith (rstripDot ((pysplit n2).headD "")) (rstripDot ((pysplit n1).headD ""))) <;>
    cases he : ((rstripDot ((pysplit n2).headD "")).length == 1 &&
      pyStartsWith (rstripDot ((pysplit n1).headD "")) (rstripDot ((pysplit n2).headD ""))) <;>
    simp_all

/-! ## Date chunking: the claim C4 family -/

/-- An exhausted range yields no chunks, whatever the budget. -/
theorem chunksGo_nil (fuel c e k : Nat) (h : ¬ c ≤ e) :
    chunksGo fuel c e k = [] := by
  cases fuel with
  | zero => rfl
  | succ n => simp [chunksGo, h]

/-- The last element of a cons is the last element of a nonempty tail. -/
theorem getLastQCons {α : Type} (a : α) (t : List α) (h : t ≠ []) :
    (a :: t).getLast? = t.getLast? := by
  cases t with
  | nil => exact absurd rfl h
  | cons b u => simp [List.getLast?_cons_cons]

/-- The chunk loop, run with sufficient budget on a nonempty range,
produces a nonempty list of consecutive, non-overlapping, inclusive
sub-ranges that starts at the cursor, ends at the range end, covers
exactly the range, and bounds every chunk length by `k`. -/
theorem chunksGo_spec (k : Nat) (hk : 1 ≤ k) :
    ∀ (fuel c e : Nat), e + 1 - c ≤ fuel → c ≤ e →
      chunksGo fuel c e k ≠ [] ∧
      (chunksGo fuel c e k).head?.map Prod.fst = some c ∧
      (chunksGo fuel c e k).getLast?.map Prod.snd = some e ∧
      List.Chain' (fun p q => q.1 = p.2 + 1) (chunksGo fuel c e k) ∧
      (∀ p ∈ chunksGo fuel c e k,
        c ≤ p.1 ∧ p.1 ≤ p.2 ∧ p.2 ≤ e ∧ p.2 + 1 ≤ p.1 + k) ∧
      (∀ x, (c ≤ x ∧ x ≤ e) ↔ ∃ p ∈ chunksGo fuel c e k, p.1 ≤ x ∧ x ≤ p.2) ∧
      List.Pairwise (fun p q => p.2 < q.1) (chunksGo fuel c e k) := by
  intro fuel
  induction fuel with
  | zero => intro c e hf hce; omega
  | succ n ih =>
    intro c e hf hce
    have hcm : c ≤ min (c + (k - 1)) e := le_min (Nat.le_add_right _ _) hce
    have hme : min (c + (k - 1)) e ≤ e := min_le_right _ _
    have hmk : min (c + (k - 1)) e + 1 ≤ c + k := by
      have := min_le_left (c + (k - 1)) e
      omega
    simp only [chunksGo, hce, if_true, ite_true]
    by_cases h2 : min (c + (k - 1)) e + 1 ≤ e
    · obtain ⟨ne', hd', lst', ch', bd', cov', pw'⟩ :=
        ih (min (c + (k - 1)) e + 1) e (by omega) h2
      refine ⟨by simp, by simp, ?_, ?_, ?_, ?_, ?_⟩
      · rw [getLastQCons _ _ ne']
        exact lst'
      · rw [List.chain'_cons']
        refine ⟨?_, ch'⟩
        intro b hb
        have : (chunksGo n (min (c + (k - 1)) e + 1) e k).head?.map Prod.fst =
            some (min (c + (k - 1)) e + 1) := hd'
        cases hh : (chunksGo n (min (c + (k - 1)) e + 1) e k).head? with
        | none => simp [hh] at hb
        | some q =>
          simp only [hh, Option.map_some] at this
          simp only [hh, Option.mem_def, Option.some.injEq] at hb
          subst hb
          simpa using this
      · intro p hp
        rcases List.mem_cons.mp hp with rfl | hp'
        · exact ⟨le_refl _, hcm, hme, by omega⟩
        · obtain ⟨b1, b2, b3, b4⟩ := bd' p hp'
          exact ⟨by omega, b2, b3, b4⟩
      · intro x
        constructor
        · rintro ⟨hx1, hx2⟩
          by_cases hxm : x ≤ min (c + (k - 1)) e
          · exact ⟨(c, min (c + (k - 1)) e), List.mem_cons_self _ _, hx1, hxm⟩
          · obtain ⟨p, hp, hpx⟩ := (cov' x).mp ⟨by omega, hx2⟩
            exact ⟨p, List.mem_cons_of_mem _ hp, hpx⟩
        · rintro ⟨p, hp, hpx1, hpx2⟩
          rcases List.mem_cons.mp hp with rfl | hp'
          · exact ⟨hpx1, le_trans hpx2 hme⟩
          · obtain ⟨b1, b2, b3, b4⟩ := bd' p hp'
            exact ⟨by omega, by omega⟩
      · rw [List.pairwise_cons]
        refine ⟨?_, pw'⟩
        intro q hq
        obtain ⟨b1, _, _, _⟩ := bd' q hq
        omega
    · have hme' : min (c + (k - 1)) e = e := by omega
      rw [hme', chunksGo_nil n (e + 1) e k (by omega)]
      have hek : e + 1 ≤ c + k := by rw [← hme']; exact hmk
      refine ⟨by simp, by simp, by simp, by simp, ?_, ?_, by simp⟩
      · intro p hp
        simp only [List.mem_singleton] at hp
        subst hp
        exact ⟨le_refl _, hce, le_refl _, hek⟩
      · intro x
        constructor
        · rintro ⟨hx1, hx2⟩
          exact ⟨(c, e), List.mem_singleton_self _, hx1, hx2⟩
        · rintro ⟨p, hp, hpx1, hpx2⟩
          simp only [List.mem_singleton] at hp
          subst hp
          exact ⟨hpx1, hpx2⟩

/-- Claim C4: for valid `YYYYMMDD` bounds with `from ≤ to` and any
chunk size (clamped to at least one day), `_build_date_chunks` formats
the chunk list of the ordinal range `[s, e]`: a nonempty sequence of
consecutive inclusive sub-ranges, starting at `s`, ending at `e`, with
no gaps (each next chunk starts the day after the previous ends), no
overlaps, covering exactly `[s, e]`, every chunk at most the clamped
size in days; chunking `20250101..20250120` with `chunk_days = 7`
yields exactly the three expected chunks. -/
theorem build_date_chunks_C4 (f t : String) (k : Int) (s e : Nat)
    (h1 : strptime8 f = some s) (h2 : strptime8 t = some e) (h3 : s ≤ e) :
    build_date_chunks f t k =
        some ((chunksOrd s e (max 1 k).toNat).map
          (fun p => (fmt8 p.1, fmt8 p.2))) ∧
      chunksOrd s e (max 1 k).toNat ≠ [] ∧
      (chunksOrd s e (max 1 k).toNat).head?.map Prod.fst = some s ∧
      (chunksOrd s e (max 1 k).toNat).getLast?.map Prod.snd = some e ∧
      List.Chain' (fun p q => q.1 = p.2 + 1) (chunksOrd s e (max 1 k).toNat) ∧
      (∀ p ∈ chunksOrd s e (max 1 k).toNat,
        s ≤ p.1 ∧ p.1 ≤ p.2 ∧ p.2 ≤ e ∧ p.2 + 1 ≤ p.1 + (max 1 k).toNat) ∧
      (∀ x, (s ≤ x ∧ x ≤ e) ↔
        ∃ p ∈ chunksOrd s e (max 1 k).toNat, p.1 ≤ x ∧ x ≤ p.2) ∧
      List.Pairwise (fun p q => p.2 < q.1) (chunksOrd s e (max 1 k).toNat) ∧
      build_date_chunks "20250101" "20250120" 7 =
        some [("20250101", "20250107"), ("20250108", "20250114"),
              ("20250115", "20250120")] := by
  have hk : 1 ≤ (max 1 k).toNat := by
    have h := le_max_left 1 k
    omega
  obtain ⟨ne', hd', lst', ch', bd', cov', pw'⟩ :=
    chunksGo_spec (max 1 k).toNat hk (e + 1 - s) s e (le_refl _) h3
  refine ⟨?_, ne', hd', lst', ch', bd', cov', pw', by decide⟩
  simp only [build_date_chunks, h1, h2, Nat.min_eq_left h3, Nat.max_eq_right h3]

/-- Witness for claim C4 at the concrete example of the claim. -/
theorem build_date_chunks_C4_witness :
    strptime8 "20250101" = some (dateToOrd 2025 1 1) ∧
      strptime8 "20250120" = some (dateToOrd 2025 1 20) ∧
      dateToOrd 2025 1 1 ≤ dateToOrd 2025 1 20 ∧
      build_date_chunks "20250101" "20250120" 7 =
        some [("20250101", "20250107"), ("20250108", "20250114"),
              ("20250115", "20250120")] :=
  ⟨by decide, by decide, by decide,
    (build_date_chunks_C4 "20250101" "20250120" 7 (dateToOrd 2025 1 1)
      (dateToOrd 2025 1 20) (by decide) (by decide) (by decide)).2.2.2.2.2.2.2.2⟩

/-! ## Active co-authors: the claim C8 family -/

set_option maxRecDepth 40000 in
set_option maxHeartbeats 1000000 in
/-- Counterexample to claim C8 as stated: `active_coauthors` is not in
general a subset of the returned `coauthor_rank` — with 101 co-authors
the recent one ranks 101st, survives the recency filter (computed on
the *untruncated* ranking) but is cut from the stored top-100 rank. -/
theorem active_coauthors_not_subset_of_rank :
    "x" ∈ c8Net.active_coauthors ∧ "x" ∉ c8Net.coauthor_rank := by decide

/-- Claim C8, amended: `active_coauthors` is exactly the names of the
full, untruncated ranking whose most recent shared year is at least
`current_year - 3`, in rank order, capped to the top 50; the stored
`coauthor_rank` is the top 100 of the same full ranking (so an active
name can be absent from it). -/
theorem build_network_C8 (papers : List Paper) (user : String) (yr : Nat) :
    (build_network papers user yr).coauthor_rank =
        (fullCoauthorRank papers user).take 100 ∧
      (build_network papers user yr).active_coauthors =
        ((fullCoauthorRank papers user).filter
          (fun n => yr - 3 ≤ (lookupCo (coauthorsOf papers user) n).last_year)).take 50 ∧
      (build_network papers user yr).active_coauthors.length ≤ 50 ∧
      (build_network papers user yr).active_coauthors.all
        (fun n => (fullCoauthorRank papers user).contains n &&
          decide (yr - 3 ≤ (lookupCo (coauthorsOf papers user) n).last_year)) = true := by
  refine ⟨rfl, rfl, List.length_take_le _ _, ?_⟩
  rw [List.all_eq_true]
  intro n hn
  have hn' : n ∈ (fullCoauthorRank papers user).filter
      (fun m => yr - 3 ≤ (lookupCo (coauthorsOf papers user) m).last_year) :=
    List.mem_of_mem_take hn
  rw [List.mem_filter] at hn'
  rw [Bool.and_eq_true]
  exact ⟨List.elem_eq_true_of_mem hn'.1, hn'.2⟩

/-! ## Second-degree expansion: the claim C9 family -/

set_option maxRecDepth 40000 in
set_option maxHeartbeats 2000000 in
/-- Counterexample to claim C9 as stated: the code keeps the top 200
counts *before* subtracting the first-degree set, while the claim
subtracts first; on a network whose first-degree set holds 102 names
occupying the top of the counter the two pipelines expose different
mappings (99 versus 100 survivors). -/
theorem second_degree_pipeline_order :
    (expand_network_second_degree c9Fetch c9Net 10).second_degree ≠
      secondDegreeSpecC9 c9Fetch c9Net 10 := by decide

/-- Claim C9, amended: the expansion builds the global co-occurrence
counter over the fetched papers of the top-N first-degree collaborators
(excluding each collaborator themselves via the fuzzy check), keeps the
top 200 counts, *then* subtracts everyone already present in the
first-degree set and exposes the top 100 names/counts; every exposed
name is absent from the first-degree `coauthor_rank`. -/
theorem expand_second_degree_C9 (fetch : String → Option (List Paper))
    (net : Network) (top_n : Nat) :
    (expand_network_second_degree fetch net top_n).second_degree =
        ((mostCommonNat (secondDegreeCounter fetch net top_n) 200).filter
          (fun pr => !(net.coauthor_rank.contains pr.1))).take 100 ∧
      (expand_network_second_degree fetch net top_n).second_degree_rank =
        (expand_network_second_degree fetch net top_n).second_degree.map Prod.fst ∧
      ((expand_network_second_degree fetch net top_n).second_degree.map
          Prod.fst).all (fun nm => !(net.coauthor_rank.contains nm)) = true := by
  refine ⟨rfl, ?_, ?_⟩
  · show ((mostCommonNat (secondDegreeCounter fetch net top_n) 200).filter
        (fun pr => !(net.coauthor_rank.contains pr.1)) |>.map Prod.fst).take 100 =
      (((mostCommonNat (secondDegreeCounter fetch net top_n) 200).filter
        (fun pr => !(net.coauthor_rank.contains pr.1))).take 100).map Prod.fst
    rw [List.map_take]
  · rw [List.all_eq_true]
    intro nm hnm
    rw [List.mem_map] at hnm
    obtain ⟨pr, hpr, rfl⟩ := hnm
    have hpr' := List.mem_of_mem_take hpr
    rw [List.mem_filter] at hpr'
    exact hpr'.2

/-! ## Period parsing: the claim C3 family -/

/-- A zero-padded digit character is a digit. -/
theorem dchIsDigit (n : Nat) (h : n < 10) :
    (Char.ofNat (48 + n)).isDigit = true := by
  interval_cases n <;> decide

/-- A digit character is not whitespace. -/
theorem dchNotWs (n : Nat) (h : n < 10) :
    pyIsWs (Char.ofNat (48 + n)) = false := by
  interval_cases n <;> decide

/-- Lowercasing fixes digit characters. -/
theorem dchLower (n : Nat) (h : n < 10) :
    pylowerChar (Char.ofNat (48 + n)) = Char.ofNat (48 + n) := by
  interval_cases n <;> decide

/-- A digit character is not the letter `d`. -/
theorem dchNeD (n : Nat) (h : n < 10) : Char.ofNat (48 + n) ≠ 'd' := by
  interval_cases n <;> decide

/-- A digit character is not a colon. -/
theorem dchNeColon (n : Nat) (h : n < 10) : Char.ofNat (48 + n) ≠ ':' := by
  interval_cases n <;> decide

/-- Decoding a zero-padded digit character. -/
theorem c2nDch (n : Nat) (h : n < 10) : c2n (Char.ofNat (48 + n)) = n := by
  interval_cases n <;> decide

/-- `dropWhile` is the identity when no element satisfies the predicate. -/
theorem dropWhileEqSelf (p : Char → Bool) (l : List Char)
    (h : ∀ c ∈ l, p c = false) : l.dropWhile p = l := by
  cases l with
  | nil => rfl
  | cons c cs => simp [List.dropWhile, h c (by simp)]

/-- Python `strip` is the identity on whitespace-free lists. -/
theorem pystripListEqSelf (l : List Char) (h : ∀ c ∈ l, pyIsWs c = false) :
    pystripList l = l := by
  unfold pystripList
  rw [dropWhileEqSelf _ _ h,
    dropWhileEqSelf _ _ (fun c hc => h c (List.mem_reverse.mp hc)),
    List.reverse_reverse]

/-- `map` is the identity when the function fixes every element. -/
theorem mapEqSelf (f : Char → Char) (l : List Char)
    (h : ∀ c ∈ l, f c = c) : l.map f = l := by
  induction l with
  | nil => rfl
  | cons c cs ih =>
    simp only [List.map_cons, h c (by simp)]
    rw [ih (fun d hd => h d (List.mem_cons_of_mem _ hd))]

/-- Decoding the four-digit zero-padded numeral. -/
theorem digitsToNatPad4 (y : Nat) (h : y ≤ 9999) : digitsToNat (pad4 y) = y := by
  simp only [digitsToNat, pad4, List.foldl,
    c2nDch _ (Nat.mod_lt _ (by norm_num)),
    c2nDch (y % 10) (Nat.mod_lt _ (by norm_num))]
  omega

/-- Decoding the two-digit zero-padded numeral. -/
theorem digitsToNatPad2 (m : Nat) (h : m ≤ 99) : digitsToNat (pad2 m) = m := by
  simp only [digitsToNat, pad2, List.foldl,
    c2nDch _ (Nat.mod_lt _ (by norm_num)),
    c2nDch (m % 10) (Nat.mod_lt _ (by norm_num))]
  omega

/-- A zero-padded digit character is a digit (mod form). -/
theorem dchModIsDigit (n : Nat) : (Char.ofNat (48 + n % 10)).isDigit = true :=
  dchIsDigit _ (Nat.mod_lt _ (by norm_num))

/-- A digit character is not whitespace (mod form). -/
theorem dchModNotWs (n : Nat) : pyIsWs (Char.ofNat (48 + n % 10)) = false :=
  dchNotWs _ (Nat.mod_lt _ (by norm_num))

/-- Lowercasing fixes digit characters (mod form). -/
theorem dchModLower (n : Nat) :
    pylowerChar (Char.ofNat (48 + n % 10)) = Char.ofNat (48 + n % 10) :=
  dchLower _ (Nat.mod_lt _ (by norm_num))

/-- A digit character is not a colon (mod form). -/
theorem dchModNeColon (n : Nat) : Char.ofNat (48 + n % 10) ≠ ':' :=
  dchNeColon _ (Nat.mod_lt _ (by norm_num))

/-- A digit character is not the letter `d` (mod form). -/
theorem dchModNeD (n : Nat) : Char.ofNat (48 + n % 10) ≠ 'd' :=
  dchNeD _ (Nat.mod_lt _ (by norm_num))

/-- Every character of a `YYYY-MM` numeral is non-whitespace, fixed by
lowercasing, and not a colon. -/
theorem padMemFacts (y m : Nat) :
    ∀ c ∈ pad4 y ++ '-' :: pad2 m,
      pyIsWs c = false ∧ pylowerChar c = c ∧ c ≠ ':' := by
  intro c hc
  simp only [pad4, pad2, List.mem_append, List.mem_cons,
    List.not_mem_nil, or_false] at hc
  rcases hc with ((rfl | rfl | rfl | rfl) | rfl | (rfl | rfl))
  · exact ⟨dchModNotWs _, dchModLower _, dchModNeColon _⟩
  · exact ⟨dchModNotWs _, dchModLower _, dchModNeColon _⟩
  · exact ⟨dchModNotWs _, dchModLower _, dchModNeColon _⟩
  · exact ⟨dchModNotWs _, dchModLower _, dchModNeColon _⟩
  · exact ⟨by decide, by decide, by decide⟩
  · exact ⟨dchModNotWs _, dchModLower _, dchModNeColon _⟩
  · exact ⟨dchModNotWs _, dchModLower _, dchModNeColon _⟩

/-- `strip().lower()` is the identity on a `YYYY-MM` numeral. -/
theorem prepPad (y m : Nat) :
    (pystripList (String.mk (pad4 y ++ '-' :: pad2 m)).data).map pylowerChar =
      pad4 y ++ '-' :: pad2 m := by
  have hfacts := padMemFacts y m
  show (pystripList (pad4 y ++ '-' :: pad2 m)).map pylowerChar = _
  rw [pystripListEqSelf _ (fun c hc => (hfacts c hc).1),
    mapEqSelf _ _ (fun c hc => (hfacts c hc).2.1)]

/-- A `YYYY-MM` numeral has seven characters. -/
theorem padLen (y m : Nat) : (pad4 y ++ '-' :: pad2 m).length = 7 := by
  simp [pad4, pad2]

/-- A `YYYY-MM` numeral contains no colon. -/
theorem padNoColon (y m : Nat) : ':' ∉ pad4 y ++ '-' :: pad2 m :=
  fun hc => (padMemFacts y m _ hc).2.2 rfl

/-- Splitting a colon-free list at colons returns the list itself. -/
theorem splitColonNoColon (l : List Char) (h : ':' ∉ l) : splitColon l = [l] := by
  induction l with
  | nil => rfl
  | cons c cs ih =>
    have hc : c ≠ ':' := fun he => h (he ▸ List.mem_cons_self _ _)
    have hcs : ':' ∉ cs := fun hm => h (List.mem_cons_of_mem _ hm)
    simp only [splitColon, ih hcs]
    simp [beq_eq_false_iff_ne.mpr hc]

/-- The month branch on a valid month below the `datetime` year cap
returns the first and the last day of the month. -/
theorem monthBranchEq (y m : Nat) (hy1 : 1 ≤ y) (hy2 : y ≤ 9999)
    (hm1 : 1 ≤ m) (hm2 : m ≤ 12) (hne : ¬(y = 9999 ∧ m = 12)) :
    monthBranch y m =
      some ("daterange", fmtYMD y m 1, fmtYMD y m (daysInMonth y m)) := by
  have hcond : (y == 0 || m == 0 || decide (12 < m)) = false := by
    simp only [Bool.or_eq_false_iff, beq_eq_false_iff_ne,
      decide_eq_false_iff_not]
    omega
  unfold monthBranch
  rw [if_neg (by simp [hcond])]
  by_cases hm12 : m = 12
  · subst hm12
    rw [if_pos (by decide), if_pos (by omega)]
    simp only [predDate]
    norm_num
    rfl
  · rw [if_neg (by simp [beq_eq_false_iff_ne.mpr hm12])]
    simp only [predDate]
    rw [if_neg (by omega), if_pos (by omega)]
    simp only [Nat.add_sub_cancel]

/-- `parse_period` on a `YYYY-MM` numeral with a valid month (other
than `9999-12`, where it raises) returns the daterange of that whole
month. -/
theorem parse_period_month (now y m : Nat) (hy1 : 1000 ≤ y) (hy2 : y ≤ 9999)
    (hm1 : 1 ≤ m) (hm2 : m ≤ 12) (hne : ¬(y = 9999 ∧ m = 12)) :
    parse_period now (String.mk (pad4 y ++ '-' :: pad2 m)) =
      some ("daterange", fmtYMD y m 1, fmtYMD y m (daysInMonth y m)) := by
  have hK : ∀ (K : List Char), K.length ≠ 7 →
      ((pad4 y ++ '-' :: pad2 m) == K) = false :=
    fun K hne' => beqFalseOfLengthNe _ _ (by rw [padLen]; omega)
  have hnd : matchNd (pad4 y ++ '-' :: pad2 m) = none := by
    have hlast : (pad4 y ++ '-' :: pad2 m).getLast? =
        some (Char.ofNat (48 + m % 10)) := by
      simp [pad4, pad2, List.getLast?_cons_cons]
    have hbeq : ((pad4 y ++ '-' :: pad2 m).getLast? == some 'd') = false := by
      rw [hlast]
      exact beq_eq_false_iff_ne.mpr (fun he => dchModNeD m (Option.some.inj he))
    unfold matchNd
    simp only [hbeq, Bool.false_eq_true, if_false, ite_false]
  have hsd : matchSingleDate (pad4 y ++ '-' :: pad2 m) = false := rfl
  have hsc := splitColonNoColon _ (padNoColon y m)
  have hmon : matchMonth (pad4 y ++ '-' :: pad2 m) = true := by
    simp only [pad4, pad2, List.cons_append, List.nil_append, matchMonth]
    simp [dchModIsDigit]
  have htake : (pad4 y ++ '-' :: pad2 m).take 4 = pad4 y := by
    simp [pad4, pad2]
  have hdrop : (pad4 y ++ '-' :: pad2 m).drop 5 = pad2 m := by
    simp [pad4, pad2]
  simp only [parse_period, prepPad y m]
  rw [if_neg (by rw [hK "today".data (by decide)]; exact Bool.false_ne_true),
    if_neg (by rw [hK "week".data (by decide), hK "pastweek".data (by decide)]; decide),
    if_neg (by rw [hK "month".data (by decide), hK "pastmonth".data (by decide),
      hK "30d".data (by decide)]; decide),
    hnd]
  simp only [hsd, Bool.false_eq_true, if_false, ite_false]
  rw [if_neg (by rw [hK "recent".data (by decide)]; exact Bool.false_ne_true)]
  rw [hsc]
  simp only [monthOrFallback, hmon, if_true, ite_true, htake, hdrop,
    digitsToNatPad4 y hy2, digitsToNatPad2 m (by omega)]
  exact monthBranchEq y m (by omega) hy2 hm1 hm2 hne

/-- Splitting at colons never returns the empty list. -/
theorem splitColonNeNil (l : List Char) : splitColon l ≠ [] := by
  cases l with
  | nil => simp [splitColon]
  | cons c cs =>
    simp only [splitColon]
    cases h : splitColon cs with
    | nil => simp
    | cons hd tl => by_cases hc : (c == ':') = true <;> simp [hc]

/-- A colon split with two or more parts means the list has a colon. -/
theorem splitColonLenColon (l : List Char)
    (h : 2 ≤ (splitColon l).length) : ':' ∈ l := by
  induction l with
  | nil => simp [splitColon] at h
  | cons c cs ih =>
    simp only [splitColon] at h
    cases hs : splitColon cs with
    | nil => exact absurd hs (splitColonNeNil cs)
    | cons hd tl =>
      rw [hs] at h
      by_cases hc : (c == ':') = true
      · have : c = ':' := beq_iff_eq.mp hc
        rw [this]
        exact List.mem_cons_self _ _
      · simp only [hc, Bool.false_eq_true, if_false, ite_false,
          List.length_cons] at h
        refine List.mem_cons_of_mem _ (ih ?_)
        rw [hs]
        simp at h ⊢
        omega

/-- A match of `^(\d{1,3})d$` contains no colon. -/
theorem matchNdNoColon (l : List Char) (n : Nat)
    (h : matchNd l = some n) : ':' ∉ l := by
  intro hc
  unfold matchNd at h
  by_cases h1 : (l.getLast? == some 'd') = true
  · rw [if_pos h1] at h
    by_cases h2 : (1 ≤ l.dropLast.length && l.dropLast.length ≤ 3 &&
        l.dropLast.all Char.isDigit) = true
    · have hl : l.getLast? = some 'd' := beq_iff_eq.mp h1
      obtain ⟨l', rfl⟩ := List.getLast?_eq_some_iff.mp hl
      simp only [Bool.and_eq_true] at h2
      obtain ⟨⟨_, _⟩, hall⟩ := h2
      rw [List.dropLast_concat] at hall
      rcases List.mem_append.mp hc with hm | hm
      · have := List.all_eq_true.mp hall ':' hm
        exact absurd this (by decide)
      · simp at hm
    · rw [if_neg h2] at h
      simp at h
  · rw [if_neg h1] at h
    simp at h

/-- A match of `^\d{4}-\d{2}-\d{2}$` holds only digits and dashes. -/
theorem matchSingleDateChars (l : List Char) (h : matchSingleDate l = true) :
    ∀ c ∈ l, (c.isDigit || c == '-') = true := by
  unfold matchSingleDate at h
  split at h
  · simp only [Bool.and_eq_true] at h
    obtain ⟨⟨⟨⟨⟨⟨⟨h1, h2⟩, h3⟩, h4⟩, h5⟩, h6⟩, h7⟩, h8⟩ := h
    intro c hc
    simp only [List.mem_cons, List.not_mem_nil, or_false] at hc
    rcases hc with rfl | rfl | rfl | rfl | rfl | rfl | rfl | rfl | rfl | rfl <;>
      simp [h1, h2, h3, h4, h5, h6, h7, h8]
  · simp at h

/-- A match of `^\d{4}-\d{2}$` holds only digits and dashes. -/
theorem matchMonthChars (l : List Char) (h : matchMonth l = true) :
    ∀ c ∈ l, (c.isDigit || c == '-') = true := by
  unfold matchMonth at h
  split at h
  · simp only [Bool.and_eq_true] at h
    obtain ⟨⟨⟨⟨⟨h1, h2⟩, h3⟩, h4⟩, h5⟩, h6⟩ := h
    intro c hc
    simp only [List.mem_cons, List.not_mem_nil, or_false] at hc
    rcases hc with rfl | rfl | rfl | rfl | rfl | rfl | rfl <;>
      simp [h1, h2, h3, h4, h5, h6]
  · simp at h

/-- A period splitting at colons into two parts of which one is not a
valid date token falls through to the HTML-page fallback. -/
theorem parse_period_colon_invalid (now : Nat) (q : String) (x y' : List Char)
    (hsplit : splitColon ((pystripList q.data).map pylowerChar) = [x, y'])
    (hbad : normalize_ymd (pystripList x) = [] ∨
      normalize_ymd (pystripList y') = [])
    (r : String × String × String) (hr : parse_period now q = some r) :
    r.1 = "html_page" := by
  simp only [parse_period] at hr
  have hc : ':' ∈ (pystripList q.data).map pylowerChar :=
    splitColonLenColon _ (by rw [hsplit]; simp)
  have hkw : ∀ K : List Char, ':' ∉ K →
      (((pystripList q.data).map pylowerChar) == K) = false := by
    intro K hK
    refine beq_eq_false_iff_ne.mpr ?_
    intro he
    exact hK (he ▸ hc)
  have hnd : matchNd ((pystripList q.data).map pylowerChar) = none := by
    cases hnd' : matchNd ((pystripList q.data).map pylowerChar) with
    | none => rfl
    | some n => exact absurd hc (matchNdNoColon _ n hnd')
  have hsd : matchSingleDate ((pystripList q.data).map pylowerChar) = false := by
    cases hsd' : matchSingleDate ((pystripList q.data).map pylowerChar) with
    | false => rfl
    | true =>
      have := matchSingleDateChars _ hsd' ':' hc
      exact absurd this (by decide)
  have hmon : matchMonth ((pystripList q.data).map pylowerChar) = false := by
    cases hmo : matchMonth ((pystripList q.data).map pylowerChar) with
    | false => rfl
    | true =>
      have := matchMonthChars _ hmo ':' hc
      exact absurd this (by decide)
  rw [hkw "today".data (by decide), hkw "week".data (by decide),
    hkw "pastweek".data (by decide), hkw "month".data (by decide),
    hkw "pastmonth".data (by decide), hkw "30d".data (by decide),
    hnd, hkw "recent".data (by decide)] at hr
  simp only [Bool.false_eq_true, Bool.false_or, if_false, ite_false,
    hsd, hsplit] at hr
  rcases hbad with hb | hb
  · simp only [hb, List.isEmpty_nil, Bool.not_true, Bool.false_and,
      Bool.and_false, Bool.false_eq_true, if_false, ite_false,
      monthOrFallback, hmon] at hr
    rw [← Option.some.inj hr]
  · simp only [hb, List.isEmpty_nil, Bool.not_true, Bool.false_and,
      Bool.and_false, Bool.false_eq_true, if_false, ite_false,
      monthOrFallback, hmon] at hr
    rw [← Option.some.inj hr]

/-- Counterexample to claim C3 as stated: `"9999-12"` matches the
`YYYY-MM` pattern, yet `parse_period` does not return the month
bounds: the next-month computation steps past `datetime.MAXYEAR` and a
`ValueError` escapes (modelled by `none`). -/
theorem parse_period_raises_on_9999_12 :
    matchMonth ((pystripList "9999-12".data).map pylowerChar) = true ∧
      parse_period 0 "9999-12" = none :=
  ⟨rfl, rfl⟩

/-- Claim C3, amended: the three concrete mappings hold; for every
`YYYY-MM` input denoting a valid calendar month with a four-digit year
of at least 1000 — except `9999-12`, on which the code raises — the
returned bounds are the first and last day of that month; and a
`from:to` input with an invalid date token is never returned as a
daterange (it falls through to the HTML-page fallback). -/
theorem parse_period_C3 (now y m : Nat) (q : String) (x y' : List Char)
    (hy1 : 1000 ≤ y) (hy2 : y ≤ 9999) (hm1 : 1 ≤ m) (hm2 : m ≤ 12)
    (hne : ¬(y = 9999 ∧ m = 12))
    (hsplit : splitColon ((pystripList q.data).map pylowerChar) = [x, y'])
    (hbad : normalize_ymd (pystripList x) = [] ∨
      normalize_ymd (pystripList y') = []) :
    parse_period now "2025-11-10:2025-11-14" =
        some ("daterange", "20251110", "20251114") ∧
      parse_period now "2025-11" = some ("daterange", "20251101", "20251130") ∧
      parse_period now "today" = some ("today", "", "") ∧
      parse_period now (String.mk (pad4 y ++ '-' :: pad2 m)) =
        some ("daterange", fmtYMD y m 1, fmtYMD y m (daysInMonth y m)) ∧
      ∀ r, parse_period now q = some r → r.1 = "html_page" :=
  ⟨rfl, rfl, rfl, parse_period_month now y m hy1 hy2 hm1 hm2 hne,
    fun r hr => parse_period_colon_invalid now q x y' hsplit hbad r hr⟩

/-- Witness for amended claim C3: July 2025 for the month bound, and
the range `"2025-11-10:oops"` with its invalid right token for the
fall-through. -/
theorem parse_period_C3_witness :
    (1000 ≤ 2025 ∧ 2025 ≤ 9999 ∧ 1 ≤ 7 ∧ 7 ≤ 12 ∧ ¬(2025 = 9999 ∧ 7 = 12)) ∧
      splitColon ((pystripList "2025-11-10:oops".data).map pylowerChar) =
        ["2025-11-10".data, "oops".data] ∧
      normalize_ymd (pystripList "oops".data) = [] ∧
      parse_period 0 (String.mk (pad4 2025 ++ '-' :: pad2 7)) =
        some ("daterange", fmtYMD 2025 7 1, fmtYMD 2025 7 (daysInMonth 2025 7)) :=
  ⟨⟨by decide, by decide, by decide, by decide, by decide⟩, by decide, by decide,
    (parse_period_C3 0 2025 7 "2025-11-10:oops" "2025-11-10".data "oops".data
      (by decide) (by decide) (by decide) (by decide) (by decide) (by decide)
      (Or.inr (by decide))).2.2.2.1⟩
